import Mathlib

/-!
Shallow embedding of `src/www/transwarp/orm.py` (the declarative ORM core):
column descriptors (`Field` and its typed variants), schema registration
(`ModelMetaclass.__new__`), DDL generation (`_gen_sql`), and the `Model`
record operations (`__getattr__`/`__setattr__`, `insert`, `update`, `delete`).

Modelling conventions:
  - Python runtime values are the inductive `PyVal`; floats are carried as
    rationals because the module only stores and forwards them, never computes
    with them.
  - Python exceptions are `Except PyErr`; `TypeError`, `StandardError` and
    `AttributeError` are the three constructors actually raised by the module.
  - A zero-argument callable default may read ambient mutable state (a clock,
    a counter), so callables are embedded as `Nat → PyVal` over an explicit
    state counter that is threaded through every operation that can evaluate
    a default; evaluating a callable advances the counter by one.
  - Python dicts are association lists in iteration order; `dictSet` mirrors
    `d[k] = v` (overwrite in place, else append) and `dictGet` mirrors lookup.
  - The class-level counter `Field._count` is threaded as an explicit `Nat`
    through every descriptor constructor.
-/

namespace Orm

/-- Python values stored as column defaults and row values in `orm.py`. -/
inductive PyVal where
  | none
  | bool (b : Bool)
  | int (n : Int)
  | float (q : Rat)
  | str (s : String)
  deriving DecidableEq

/-- The three Python exception classes raised by `orm.py`: `TypeError` from
`ModelMetaclass.__new__`, `StandardError` from `_gen_sql`, `AttributeError`
from `Model.__getattr__`. -/
inductive PyErr where
  | typeError (msg : String)
  | standardError (msg : String)
  | attributeError (msg : String)
  deriving DecidableEq

deriving instance DecidableEq for Except

/-- The `_default` slot of a `Field` (orm.py line 48): either a plain value or
a zero-argument callable. A callable may read ambient mutable state, embedded
as a function of the state counter. -/
inductive FieldDefault where
  | value (v : PyVal)
  | callable (f : Nat → PyVal)

/-- Evaluation of `Field.default` (orm.py lines 57-63): `d() if callable(d)
else d`, with the state counter advanced when (and only when) the callable is
invoked. -/
def FieldDefault.eval : FieldDefault → Nat → PyVal × Nat
  | .value v, n => (v, n)
  | .callable f, n => (f n, n + 1)

/-- The keyword-argument dictionary accepted by `Field.__init__` and the typed
variants; `Option.none` means the caller did not pass the key. The extra `dll`
slot exists because `TextField.__init__` (orm.py line 135) writes
`kw['dll'] = 'text'` — a key `Field.__init__` never reads. -/
structure FieldKw where
  name : Option String := Option.none
  default : Option FieldDefault := Option.none
  primary_key : Option Bool := Option.none
  nullable : Option Bool := Option.none
  updatable : Option Bool := Option.none
  insertable : Option Bool := Option.none
  ddl : Option String := Option.none
  dll : Option String := Option.none

/-- A column descriptor (class `Field`, orm.py lines 12-76). The `ddl` slot is
an `Option` so that `_gen_sql`'s `hasattr(f, 'ddl')` test is representable:
`Option.none` stands for an absent attribute; `Field.init` always produces
`some` (the attribute is always set, possibly to the empty string). -/
structure Field where
  name : Option String
  _default : FieldDefault
  primary_key : Bool
  nullable : Bool
  updatable : Bool
  insertable : Bool
  ddl : Option String
  _order : Nat

/-- The `Field.__init__` constructor (orm.py lines 46-55): reads each option
with its documented fallback and stamps `_order` from the class counter
`Field._count`, which it increments. -/
def Field.init (kw : FieldKw) (count : Nat) : Field × Nat :=
  ({ name := kw.name
     _default := kw.default.getD (.value .none)
     primary_key := kw.primary_key.getD false
     nullable := kw.nullable.getD false
     updatable := kw.updatable.getD true
     insertable := kw.insertable.getD true
     ddl := some (kw.ddl.getD "")
     _order := count }, count + 1)

/-- The read-only `default` property of `Field` (orm.py lines 57-63). -/
def Field.default (f : Field) (n : Nat) : PyVal × Nat :=
  f._default.eval n

/-- Constructor `StringField.__init__` (orm.py lines 79-88). -/
def StringField.init (kw : FieldKw) (count : Nat) : Field × Nat :=
  let kw := if kw.default.isNone then { kw with default := some (.value (.str "")) } else kw
  let kw := if kw.ddl.isNone then { kw with ddl := some "varchar(255)" } else kw
  Field.init kw count

/-- Constructor `IntegerField.__init__` (orm.py lines 91-100). -/
def IntegerField.init (kw : FieldKw) (count : Nat) : Field × Nat :=
  let kw := if kw.default.isNone then { kw with default := some (.value (.int 0)) } else kw
  let kw := if kw.ddl.isNone then { kw with ddl := some "bigint" } else kw
  Field.init kw count

/-- Constructor `FloatField.__init__` (orm.py lines 103-112). -/
def FloatField.init (kw : FieldKw) (count : Nat) : Field × Nat :=
  let kw := if kw.default.isNone then { kw with default := some (.value (.float 0)) } else kw
  let kw := if kw.ddl.isNone then { kw with ddl := some "real" } else kw
  Field.init kw count

/-- Constructor `BooleanField.__init__` (orm.py lines 115-124). -/
def BooleanField.init (kw : FieldKw) (count : Nat) : Field × Nat :=
  let kw := if kw.default.isNone then { kw with default := some (.value (.bool false)) } else kw
  let kw := if kw.ddl.isNone then { kw with ddl := some "bool" } else kw
  Field.init kw count

/-- Constructor `TextField.__init__` (orm.py lines 127-136). Note the source
writes `kw['dll'] = 'text'` on line 135 — the key is `dll`, not `ddl` — so the
`ddl` option is left untouched and `Field.__init__` falls back to `''`. -/
def TextField.init (kw : FieldKw) (count : Nat) : Field × Nat :=
  let kw := if kw.default.isNone then { kw with default := some (.value (.str "")) } else kw
  let kw := if kw.ddl.isNone then { kw with dll := some "text" } else kw
  Field.init kw count

/-- Constructor `BlobField.__init__` (orm.py lines 139-148). -/
def BlobField.init (kw : FieldKw) (count : Nat) : Field × Nat :=
  let kw := if kw.default.isNone then { kw with default := some (.value (.str "")) } else kw
  let kw := if kw.ddl.isNone then { kw with ddl := some "blob" } else kw
  Field.init kw count

/-- Constructor `VersionField.__init__` (orm.py lines 151-156): only a `name`
parameter; `default=0`, `ddl='bigint'` are passed explicitly. -/
def VersionField.init (name : Option String) (count : Nat) : Field × Nat :=
  Field.init { name := name, default := some (.value (.int 0)), ddl := some "bigint" } count

/-- Python's `str.lower()` on a class name (orm.py line 234), as a structural
character map so it reduces inside the kernel. -/
def pyLower (s : String) : String := ⟨s.data.map Char.toLower⟩

/-- Rendering of a string-or-None Python value by the `%s` format directive. -/
def pyStr : Option String → String
  | Option.none => "None"
  | some s => s

/-- Python truthiness test `not v.name` used on orm.py line 213: true when the
name is `None` or the empty string. -/
def pyFalsyName : Option String → Bool
  | Option.none => true
  | some s => s.isEmpty

/-- Python dict lookup `d[key]` on an association list in iteration order. -/
def dictGet {κ α : Type} [DecidableEq κ] : List (κ × α) → κ → Option α
  | [], _ => Option.none
  | (k, v) :: rest, key => if k = key then some v else dictGet rest key

/-- Python dict assignment `d[key] = val`: overwrite in place when the key is
present, else append at the end. -/
def dictSet {κ α : Type} [DecidableEq κ] : List (κ × α) → κ → α → List (κ × α)
  | [], key, val => [(key, val)]
  | (k, v) :: rest, key, val =>
    if k = key then (key, val) :: rest else (k, v) :: dictSet rest key val

/-- A `Model` instance: the dict contents of the record (orm.py line 244,
`class Model(dict)`), keys are attribute names. -/
abbrev ModelDict := List (String × PyVal)

/-- The comparison `cmp(x._order, y._order)` used to sort fields in `_gen_sql`
(orm.py line 168): ascending order on the `_order` stamp. -/
def fieldOrder (a b : Field) : Prop := a._order ≤ b._order

instance : DecidableRel fieldOrder := fun a b => Nat.decLe a._order b._order

instance : IsTotal Field fieldOrder := ⟨fun a b => Nat.le_total a._order b._order⟩

instance : IsTrans Field fieldOrder := ⟨fun _ _ _ => Nat.le_trans⟩

/-- The `sorted(mappings.values(), lambda x, y: cmp(x._order, y._order))`
expression of `_gen_sql` (orm.py line 168): the dict's values in iteration
order, stably sorted ascending by `_order`. Python's `sorted` is a stable
sort; a stable structural sort is observationally identical (and stability is
immaterial here because `_order` stamps are pairwise distinct). -/
def sortedFields (mappings : List (String × Field)) : List Field :=
  (mappings.map Prod.snd).insertionSort fieldOrder

/-- The body of the `for f in sorted(...)` loop of `_gen_sql` (orm.py lines
168-176): checks `hasattr(f, 'ddl')`, tracks the last primary-key name, and
emits one column line per field. Returns the column lines and the final `pk`
variable (initially the rendering of Python `None`). -/
def genSqlLoop : List Field → String → Except PyErr (List String × String)
  | [], pk => .ok ([], pk)
  | f :: fs, pk =>
    match f.ddl with
    | Option.none => .error (.standardError ("no ddl in field " ++ pyStr f.name ++ "."))
    | some ddl =>
      let pk := if f.primary_key then pyStr f.name else pk
      let line :=
        if f.nullable then "  `" ++ pyStr f.name ++ "` " ++ ddl ++ ","
        else "  `" ++ pyStr f.name ++ "` " ++ ddl ++ " not null,"
      match genSqlLoop fs pk with
      | .error e => .error e
      | .ok (lines, pk2) => .ok (line :: lines, pk2)

/-- The function `_gen_sql(table_name, mappings)` (orm.py lines 162-179). -/
def _gen_sql (table_name : String) (mappings : List (String × Field)) : Except PyErr String :=
  match genSqlLoop (sortedFields mappings) "None" with
  | .error e => .error e
  | .ok (lines, pk) =>
    .ok (String.intercalate "\n"
      (("-- generating SQL for " ++ table_name ++ ":") ::
       ("create table `" ++ table_name ++ "` (") ::
       (lines ++ ["  primary key(`" ++ pk ++ "`)", ");"])))

/-- A lifecycle hook (`pre_insert`/`pre_update`/`pre_delete`): a zero-argument
procedure invoked on the instance, which may mutate it and read/advance the
ambient state counter. -/
abbrev ModelHook := ModelDict → Nat → ModelDict × Nat

/-- The class-attribute dictionary handed to `ModelMetaclass.__new__`,
projected to the parts the metaclass inspects: the `Field`-valued attributes
in dict iteration order, the optional explicit `__table__`, and the three
optional trigger slots. -/
structure ClassAttrs where
  fields : List (String × Field)
  table : Option String := Option.none
  pre_insert : Option ModelHook := Option.none
  pre_update : Option ModelHook := Option.none
  pre_delete : Option ModelHook := Option.none

/-- The class-level artifact produced by registration: `__table__`,
`__mappings__`, `__primary_key__` and the trigger slots (orm.py lines
233-240). -/
structure Mapping where
  table : String
  mappings : List (String × Field)
  primary_key : Field
  pre_insert : Option ModelHook := Option.none
  pre_update : Option ModelHook := Option.none
  pre_delete : Option ModelHook := Option.none

/-- The name-filling step of `ModelMetaclass.__new__` (orm.py lines 213-214):
`if not v.name: v.name = k`. -/
def fillName (k : String) (v : Field) : Field :=
  if pyFalsyName v.name then { v with name := some k } else v

/-- The primary-key normalization of `ModelMetaclass.__new__` (orm.py lines
220-225): force `updatable` and `nullable` to false (the source assigns each
only when it was true, with a warning; the net effect is the same). -/
def pkNormalize (v : Field) : Field :=
  { v with updatable := false, nullable := false }

/-- The `for k, v in attrs.iteritems()` loop of `ModelMetaclass.__new__`
(orm.py lines 211-227): fills an unset (falsy) `name` from the attribute key,
raises `TypeError` on a second primary key, normalizes the primary key to
non-updatable and non-nullable, and collects the mappings dict. Returns the
mappings in iteration order together with the `primary_key` variable. -/
def registerLoop (cls : String) :
    List (String × Field) → Option Field → Except PyErr (List (String × Field) × Option Field)
  | [], pk => .ok ([], pk)
  | (k, v0) :: rest, pk =>
    let v := fillName k v0
    if v.primary_key then
      match pk with
      | some _ => .error (.typeError ("Cannot define more than 1 primary key in class: " ++ cls))
      | Option.none =>
        match registerLoop cls rest (some (pkNormalize v)) with
        | .error e => .error e
        | .ok (ms, pk2) => .ok ((k, pkNormalize v) :: ms, pk2)
    else
      match registerLoop cls rest pk with
      | .error e => .error e
      | .ok (ms, pk2) => .ok ((k, v) :: ms, pk2)

/-- The registration entry point `ModelMetaclass.__new__` (orm.py lines
195-241). The base class `Model` is passed through without scanning (`.ok
Option.none`); any other class is scanned, must end with a primary key
(`TypeError` otherwise), defaults `__table__` to the lower-cased class name,
and yields its `Mapping`. The `subclasses` bookkeeping and the `attrs.pop`
namespace cleanup have no bearing on the produced mapping and are not
modelled. -/
def modelMetaclassNew (name : String) (attrs : ClassAttrs) : Except PyErr (Option Mapping) :=
  if name = "Model" then .ok Option.none
  else
    match registerLoop name attrs.fields Option.none with
    | .error e => .error e
    | .ok (ms, pkOpt) =>
      match pkOpt with
      | Option.none => .error (.typeError ("Primary key not defined in class: " ++ name))
      | some pk =>
        .ok (some { table := attrs.table.getD (pyLower name)
                    mappings := ms
                    primary_key := pk
                    pre_insert := attrs.pre_insert
                    pre_update := attrs.pre_update
                    pre_delete := attrs.pre_delete })

/-- Attribute read `Model.__getattr__` (orm.py lines 306-314): dict lookup,
raising `AttributeError` when the key is absent. -/
def Model.getattr (self : ModelDict) (key : String) : Except PyErr PyVal :=
  match dictGet self key with
  | some v => .ok v
  | Option.none => .error (.attributeError ("Dict object has no attribute " ++ key))

/-- Attribute write `Model.__setattr__` (orm.py lines 316-321): plain dict
assignment, always succeeds. -/
def Model.setattr (self : ModelDict) (key : String) (val : PyVal) : ModelDict :=
  dictSet self key val

/-- Python `hasattr(self, k)` on a `Model` instance: true exactly when the key
is present in the dict contents (absence makes `__getattr__` raise). -/
def Model.hasattrb (self : ModelDict) (key : String) : Bool :=
  (dictGet self key).isSome

/-- The `for k, v in self.__mappings__.iteritems()` loop of `Model.insert`
(orm.py lines 422-427): for every insertable column, materialize the default
onto the instance when the attribute is missing, and record the current value
in `params` under the column `name`. -/
def insertLoop : List (String × Field) → ModelDict → List (Option String × PyVal) → Nat →
    ModelDict × List (Option String × PyVal) × Nat
  | [], self, params, n => (self, params, n)
  | (k, v) :: rest, self, params, n =>
    if v.insertable then
      match dictGet self k with
      | some w => insertLoop rest self (dictSet params v.name w) n
      | Option.none =>
        let (d, n2) := v.default n
        insertLoop rest (Model.setattr self k d) (dictSet params v.name d) n2
    else insertLoop rest self params n

/-- The method `Model.insert` (orm.py lines 415-429): runs the `pre_insert`
hook when present, materializes defaults for missing insertable columns, and
hands `params` to `db.insert(table, **params)`. Returns the (now-populated)
instance, the `params` dict passed to the database primitive, and the state
counter. -/
def Model.insert (M : Mapping) (self : ModelDict) (n : Nat) :
    ModelDict × List (Option String × PyVal) × Nat :=
  let (self, n) :=
    match M.pre_insert with
    | some h => h self n
    | Option.none => (self, n)
  insertLoop M.mappings self [] n

/-- The `for k, v in self.__mappings__.iteritems()` loop of `Model.update`
(orm.py lines 390-398): for every updatable column, take the current value or
materialize the default, and accumulate the SET-clause entry and argument. -/
def updateLoop : List (String × Field) → ModelDict → Nat →
    ModelDict × List String × List PyVal × Nat
  | [], self, n => (self, [], [], n)
  | (k, v) :: rest, self, n =>
    if v.updatable then
      let (arg, self2, n2) :=
        match dictGet self k with
        | some w => (w, self, n)
        | Option.none =>
          let (d, m) := v.default n
          (d, Model.setattr self k d, m)
      let (self3, L, args, n3) := updateLoop rest self2 n2
      (self3, ("`" ++ k ++ "`=?") :: L, arg :: args, n3)
    else updateLoop rest self n

/-- The method `Model.update` (orm.py lines 374-402): runs the `pre_update`
hook when present, builds the SET clause and arguments, then reads the
primary-key attribute (raising `AttributeError` when missing) and builds the
SQL text handed to `db.update`. Returns the `.ok (sql, args)` pair passed to
the database primitive (or the error raised before reaching it), the instance
as mutated so far, and the state counter. -/
def Model.update (M : Mapping) (self : ModelDict) (n : Nat) :
    Except PyErr (String × List PyVal) × ModelDict × Nat :=
  let (self, n) :=
    match M.pre_update with
    | some h => h self n
    | Option.none => (self, n)
  let (self, L, args, n) := updateLoop M.mappings self n
  let pk := pyStr M.primary_key.name
  match Model.getattr self pk with
  | .error e => (.error e, self, n)
  | .ok pkv =>
    (.ok ("update `" ++ M.table ++ "` set " ++ String.intercalate "," L ++
          " where " ++ pk ++ "=?", args ++ [pkv]), self, n)

/-- The method `Model.delete` (orm.py lines 404-413): runs the `pre_delete`
hook when present, reads the primary-key attribute (raising `AttributeError`
when missing) and builds the SQL text and argument tuple handed to
`db.update`. -/
def Model.delete (M : Mapping) (self : ModelDict) (n : Nat) :
    Except PyErr (String × List PyVal) × ModelDict × Nat :=
  let (self, n) :=
    match M.pre_delete with
    | some h => h self n
    | Option.none => (self, n)
  let pk := pyStr M.primary_key.name
  match Model.getattr self pk with
  | .error e => (.error e, self, n)
  | .ok pkv =>
    (.ok ("delete from `" ++ M.table ++ "` where `" ++ pk ++ "`=?", [pkv]), self, n)

/-- Spec-side rendering of the claim C7 SET clause: exactly the updatable
columns, in mapping iteration order, each as a backquoted `key=?` entry. -/
def updateSetColsSpec (M : Mapping) : List String :=
  (M.mappings.filter (fun kv => kv.2.updatable)).map (fun kv => "`" ++ kv.1 ++ "`=?")

/-- Spec-side rendering of the claim C7 argument list (without the trailing
primary-key value): the updatable columns' current values, read from the given
(post-materialization) instance. -/
def updateArgsSpec (M : Mapping) (self : ModelDict) : List PyVal :=
  (M.mappings.filter (fun kv => kv.2.updatable)).map
    (fun kv => (dictGet self kv.1).getD PyVal.none)

/-- Concrete descriptor for witness instantiations: an integer primary key
deliberately declared updatable and nullable (so registration must override
both flags). -/
def widF : Field :=
  (IntegerField.init { primary_key := some true, updatable := some true, nullable := some true } 0).1

/-- Concrete descriptor for witness instantiations: a plain string column. -/
def wnameF : Field := (StringField.init {} 1).1

/-- Concrete descriptor for witness instantiations: a column with a
callable default reading the ambient counter. -/
def wpassF : Field :=
  (StringField.init { default := some (.callable (fun c => .int c)) } 2).1

/-- Concrete descriptor for witness instantiations: a column with a plain
(non-callable) default value. -/
def wplainF : Field := (StringField.init { default := some (.value (.str "s")) } 3).1

/-- Concrete class-attribute set for witness instantiations, in an iteration
order that differs from declaration order. -/
def wattrs : ClassAttrs := { fields := [("name", wnameF), ("id", widF)] }

/-- The mapping registered for `wattrs`. -/
def wMapping : Mapping :=
  match modelMetaclassNew "User" wattrs with
  | .ok (some M) => M
  | _ => { table := "", mappings := [], primary_key := wnameF }

/-- A `TextField` declared as primary key without an explicit `ddl` option:
because of the `kw['dll']` typo its `ddl` is the empty string. -/
def textDocField : Field := (TextField.init { primary_key := some true } 0).1

/-- Class attributes of a record type holding only `textDocField`. -/
def docAttrs : ClassAttrs := { fields := [("content", textDocField)] }

/-- The mapping registered for `docAttrs`. -/
def docMapping : Mapping :=
  match modelMetaclassNew "Doc" docAttrs with
  | .ok (some M) => M
  | _ => { table := "", mappings := [], primary_key := textDocField }

/-!
Theorems. Helper lemmas come first, then one theorem per claim (with its
witness or counterexample where applicable).
-/

/-- Helper: `Except.isOk` characterized by existence of an `ok` payload. -/
theorem except_isOk_iff {ε α : Type} (e : Except ε α) :
    e.isOk = true ↔ ∃ a, e = .ok a := by
  cases e <;> simp [Except.isOk, Except.toBool]

/-- Helper: looking up the key just assigned returns the assigned value. -/
theorem dictGet_dictSet_self {κ α : Type} [DecidableEq κ] (d : List (κ × α)) (k : κ) (v : α) :
    dictGet (dictSet d k v) k = some v := by
  induction d with
  | nil => simp [dictGet, dictSet]
  | cons hd tl ih =>
    obtain ⟨k1, v1⟩ := hd
    by_cases h : k1 = k
    · simp [dictSet, h, dictGet]
    · simp [dictSet, h, dictGet, ih]

/-- Helper: assignment to one key leaves every other key's lookup unchanged. -/
theorem dictGet_dictSet_other {κ α : Type} [DecidableEq κ] (d : List (κ × α)) (k k2 : κ) (v : α)
    (h : k ≠ k2) : dictGet (dictSet d k v) k2 = dictGet d k2 := by
  induction d with
  | nil => simp [dictGet, dictSet, h]
  | cons hd tl ih =>
    obtain ⟨k1, v1⟩ := hd
    by_cases h1 : k1 = k
    · subst h1; simp [dictSet, dictGet, h]
    · simp [dictSet, h1, dictGet, ih]

/-- C9: on a `Model` instance, attribute assignment with any string key
succeeds and stores the value in the dict contents (a subsequent read of that
key returns exactly the assigned value), while attribute read of a key that
was never set raises `AttributeError` rather than returning an absence
value. -/
theorem model_attr_access (self : ModelDict) (key k2 : String) (v : PyVal)
    (habsent : Model.hasattrb self key = false) :
    Model.getattr (Model.setattr self k2 v) k2 = .ok v ∧
    Model.getattr self key =
      .error (.attributeError ("Dict object has no attribute " ++ key)) := by
  constructor
  · simp [Model.getattr, Model.setattr, dictGet_dictSet_self]
  · have : dictGet self key = Option.none := by
      cases h : dictGet self key with
      | none => rfl
      | some w => simp [Model.hasattrb, h] at habsent
    simp [Model.getattr, this]

/-- Witness for C9 at a concrete instance. -/
theorem model_attr_access_witness :
    Model.getattr (Model.setattr [] "x" (.int 1)) "x" = .ok (.int 1) ∧
    Model.getattr [] "y" =
      .error (.attributeError ("Dict object has no attribute " ++ "y")) :=
  model_attr_access [] "y" "x" (.int 1) rfl

/-- C8: `default_value()` (the `Field.default` property) on a descriptor whose
default is callable invokes the callable afresh on every call — the call reads
the current ambient state and advances it — and on a descriptor whose default
is a plain value it returns exactly that stored value on every call, leaving
the state untouched. -/
theorem field_default_value (fld : Field) (v : PyVal) (f : Nat → PyVal) (n : Nat) :
    (fld._default = .value v → Field.default fld n = (v, n)) ∧
    (fld._default = .callable f → Field.default fld n = (f n, n + 1)) := by
  constructor <;> intro h <;> simp [Field.default, h, FieldDefault.eval]

/-- Witness for C8: the plain default returns the stored value at any state;
the counter-based callable default yields different fresh values on two
successive calls. -/
theorem field_default_value_witness :
    Field.default wplainF 0 = (.str "s", 0) ∧
    Field.default wpassF 0 = (.int 0, 1) ∧
    Field.default wpassF 1 = (.int 1, 2) :=
  ⟨(field_default_value wplainF (.str "s") (fun c => .int c) 0).1 rfl,
   (field_default_value wpassF (.str "s") (fun c => .int c) 0).2 rfl,
   (field_default_value wpassF (.str "s") (fun c => .int c) 1).2 rfl⟩

/-- C3 (code bug located): each typed descriptor variant constructed without
explicit `ddl`/`default` options carries the documented defaults —
string `varchar(255)`/`""`, integer `bigint`/`0`, float `real`/`0.0`, boolean
`bool`/`false`, blob `blob`/`""`, version `bigint`/`0` — but the large-text
variant does NOT: `TextField.__init__` writes the dead key `dll`, so its `ddl`
is the empty string instead of `text`. -/
theorem typed_field_default_options :
    (StringField.init {} 0).1.ddl = some "varchar(255)" ∧
    (StringField.init {} 0).1._default = .value (.str "") ∧
    (IntegerField.init {} 0).1.ddl = some "bigint" ∧
    (IntegerField.init {} 0).1._default = .value (.int 0) ∧
    (FloatField.init {} 0).1.ddl = some "real" ∧
    (FloatField.init {} 0).1._default = .value (.float 0) ∧
    (BooleanField.init {} 0).1.ddl = some "bool" ∧
    (BooleanField.init {} 0).1._default = .value (.bool false) ∧
    (BlobField.init {} 0).1.ddl = some "blob" ∧
    (BlobField.init {} 0).1._default = .value (.str "") ∧
    (VersionField.init Option.none 0).1.ddl = some "bigint" ∧
    (VersionField.init Option.none 0).1._default = .value (.int 0) ∧
    (TextField.init {} 0).1._default = .value (.str "") ∧
    (TextField.init {} 0).1.ddl = some "" ∧
    (TextField.init {} 0).1.ddl ≠ some "text" := by
  refine ⟨rfl, rfl, rfl, rfl, rfl, rfl, rfl, rfl, rfl, rfl, rfl, rfl, rfl, rfl, ?_⟩
  decide

/-- Helper: the name-filling step of registration does not change the
`primary_key` flag. -/
theorem fillName_primary_key (k : String) (v : Field) :
    (fillName k v).primary_key = v.primary_key := by
  unfold fillName
  by_cases hn : pyFalsyName v.name <;> simp [hn]

/-- Helper: primary-key normalization keeps the `primary_key` flag. -/
theorem pkNormalize_primary_key (v : Field) :
    (pkNormalize v).primary_key = v.primary_key := rfl

/-- Helper: primary-key normalization clears the `updatable` flag. -/
theorem pkNormalize_updatable (v : Field) : (pkNormalize v).updatable = false := rfl

/-- Helper: primary-key normalization clears the `nullable` flag. -/
theorem pkNormalize_nullable (v : Field) : (pkNormalize v).nullable = false := rfl

/-- Helper: the count of primary-key descriptors in a cons splits on the head
flag. -/
theorem countP_pk_cons (k : String) (v : Field) (rest : List (String × Field)) :
    ((k, v) :: rest).countP (fun kv => kv.2.primary_key) =
      rest.countP (fun kv => kv.2.primary_key) + (if v.primary_key then 1 else 0) := by
  rw [List.countP_cons]

/-- Helper: with no primary-key descriptor among the remaining attributes,
`registerLoop` succeeds and leaves the `primary_key` accumulator unchanged. -/
theorem registerLoop_zero_pk (cls : String) (fs : List (String × Field)) :
    ∀ pk0, fs.countP (fun kv => kv.2.primary_key) = 0 →
      ∃ ms, registerLoop cls fs pk0 = .ok (ms, pk0) := by
  induction fs with
  | nil => intro pk0 _; exact ⟨[], rfl⟩
  | cons kv rest ih =>
    intro pk0 hc
    obtain ⟨k, v⟩ := kv
    rw [countP_pk_cons] at hc
    have hvpk : v.primary_key = false := by
      by_cases h : v.primary_key = true
      · rw [if_pos h] at hc; omega
      · simpa using h
    rw [if_neg (by simp [hvpk])] at hc
    have hc0 : rest.countP (fun kv => kv.2.primary_key) = 0 := by omega
    obtain ⟨ms, hms⟩ := ih pk0 hc0
    refine ⟨(k, fillName k v) :: ms, ?_⟩
    simp only [registerLoop, fillName_primary_key, hvpk, Bool.false_eq_true, if_false, hms]

/-- Helper: once a primary key has been recorded, any further primary-key
descriptor makes `registerLoop` raise the duplicate-key `TypeError`. -/
theorem registerLoop_dup_pk (cls : String) (fs : List (String × Field)) :
    ∀ p : Field, 1 ≤ fs.countP (fun kv => kv.2.primary_key) →
      registerLoop cls fs (some p) =
        .error (.typeError ("Cannot define more than 1 primary key in class: " ++ cls)) := by
  induction fs with
  | nil => intro p hc; simp at hc
  | cons kv rest ih =>
    intro p hc
    obtain ⟨k, v⟩ := kv
    rw [countP_pk_cons] at hc
    by_cases hvpk : v.primary_key = true
    · simp [registerLoop, fillName_primary_key, hvpk]
    · simp only [Bool.not_eq_true] at hvpk
      rw [if_neg (by simp [hvpk])] at hc
      have hc1 : 1 ≤ rest.countP (fun kv => kv.2.primary_key) := by omega
      simp only [registerLoop, fillName_primary_key, hvpk, Bool.false_eq_true, if_false,
        ih p hc1]

/-- Helper: with exactly one primary-key descriptor, `registerLoop` starting
from an empty accumulator succeeds with a recorded primary key. -/
theorem registerLoop_one_pk (cls : String) (fs : List (String × Field)) :
    fs.countP (fun kv => kv.2.primary_key) = 1 →
      ∃ ms p, registerLoop cls fs Option.none = .ok (ms, some p) := by
  induction fs with
  | nil => intro hc; simp at hc
  | cons kv rest ih =>
    intro hc
    obtain ⟨k, v⟩ := kv
    rw [countP_pk_cons] at hc
    by_cases hvpk : v.primary_key = true
    · rw [if_pos hvpk] at hc
      have hc0 : rest.countP (fun kv => kv.2.primary_key) = 0 := by omega
      obtain ⟨ms, hms⟩ :=
        registerLoop_zero_pk cls rest (some (pkNormalize (fillName k v))) hc0
      refine ⟨(k, pkNormalize (fillName k v)) :: ms, pkNormalize (fillName k v), ?_⟩
      simp only [registerLoop, fillName_primary_key, hvpk, if_true]
      rw [hms]
    · simp only [Bool.not_eq_true] at hvpk
      rw [if_neg (by simp [hvpk])] at hc
      have hc1 : rest.countP (fun kv => kv.2.primary_key) = 1 := by omega
      obtain ⟨ms, p, hms⟩ := ih hc1
      refine ⟨(k, fillName k v) :: ms, p, ?_⟩
      simp only [registerLoop, fillName_primary_key, hvpk, Bool.false_eq_true, if_false]
      rw [hms]

/-- Helper: with two or more primary-key descriptors, `registerLoop` raises
the duplicate-key `TypeError`. -/
theorem registerLoop_many_pk (cls : String) (fs : List (String × Field)) :
    2 ≤ fs.countP (fun kv => kv.2.primary_key) →
      registerLoop cls fs Option.none =
        .error (.typeError ("Cannot define more than 1 primary key in class: " ++ cls)) := by
  induction fs with
  | nil => intro hc; simp at hc
  | cons kv rest ih =>
    intro hc
    obtain ⟨k, v⟩ := kv
    rw [countP_pk_cons] at hc
    by_cases hvpk : v.primary_key = true
    · rw [if_pos hvpk] at hc
      have hc1 : 1 ≤ rest.countP (fun kv => kv.2.primary_key) := by omega
      simp only [registerLoop, fillName_primary_key, hvpk, if_true]
      rw [registerLoop_dup_pk cls rest _ hc1]
    · simp only [Bool.not_eq_true] at hvpk
      rw [if_neg (by simp [hvpk])] at hc
      have hc2 : 2 ≤ rest.countP (fun kv => kv.2.primary_key) := by omega
      simp only [registerLoop, fillName_primary_key, hvpk, Bool.false_eq_true, if_false,
        ih hc2]

/-- C1: registration of a record type (any class other than the skipped base
`Model`) succeeds exactly when the declared attributes contain exactly one
primary-key descriptor, and for zero or two-plus primary keys it raises a
`TypeError` at type-declaration time. -/
theorem registration_primary_key (name : String) (attrs : ClassAttrs) (h : name ≠ "Model") :
    ((modelMetaclassNew name attrs).isOk = true ↔
       attrs.fields.countP (fun kv => kv.2.primary_key) = 1) ∧
    (attrs.fields.countP (fun kv => kv.2.primary_key) ≠ 1 →
       ∃ msg, modelMetaclassNew name attrs = .error (.typeError msg)) := by
  by_cases h1 : attrs.fields.countP (fun kv => kv.2.primary_key) = 1
  · obtain ⟨ms, p, hms⟩ := registerLoop_one_pk name attrs.fields h1
    constructor
    · simp [modelMetaclassNew, h, hms, Except.isOk, Except.toBool, h1]
    · intro hne; exact absurd h1 hne
  · rcases Nat.lt_or_ge (attrs.fields.countP (fun kv => kv.2.primary_key)) 1 with hc | hc
    · have hc0 : attrs.fields.countP (fun kv => kv.2.primary_key) = 0 := by omega
      obtain ⟨ms, hms⟩ := registerLoop_zero_pk name attrs.fields Option.none hc0
      constructor
      · simp [modelMetaclassNew, h, hms, Except.isOk, Except.toBool, h1]
      · intro _
        exact ⟨"Primary key not defined in class: " ++ name,
          by simp [modelMetaclassNew, h, hms]⟩
    · have hc2 : 2 ≤ attrs.fields.countP (fun kv => kv.2.primary_key) := by omega
      have herr := registerLoop_many_pk name attrs.fields hc2
      constructor
      · simp [modelMetaclassNew, h, herr, Except.isOk, Except.toBool, h1]
      · intro _
        exact ⟨"Cannot define more than 1 primary key in class: " ++ name,
          by simp [modelMetaclassNew, h, herr]⟩

/-- Witness for C1: the two-column schema with one primary key registers
successfully; dropping the primary key or adding a second one raises. -/
theorem registration_primary_key_witness :
    ((modelMetaclassNew "User" wattrs).isOk = true ↔
       wattrs.fields.countP (fun kv => kv.2.primary_key) = 1) ∧
    (wattrs.fields.countP (fun kv => kv.2.primary_key) ≠ 1 →
       ∃ msg, modelMetaclassNew "User" wattrs = .error (.typeError msg)) :=
  registration_primary_key "User" wattrs (by decide)

/-- Helper: every mapping entry produced by `registerLoop` that carries the
`primary_key` flag has been normalized to non-updatable and non-nullable, and
so has the recorded primary-key descriptor (unless it was already recorded in
the accumulator on entry). -/
theorem registerLoop_normalizes (cls : String) (fs : List (String × Field)) :
    ∀ pk0 ms pk2, registerLoop cls fs pk0 = .ok (ms, pk2) →
      ((∀ kv ∈ ms, kv.2.primary_key = true →
          kv.2.updatable = false ∧ kv.2.nullable = false) ∧
       (pk2 = pk0 ∨ ∃ q, pk2 = some q ∧ q.updatable = false ∧ q.nullable = false)) := by
  induction fs with
  | nil =>
    intro pk0 ms pk2 h
    simp only [registerLoop, Except.ok.injEq, Prod.mk.injEq] at h
    obtain ⟨h1, h2⟩ := h
    exact ⟨by simp [← h1], Or.inl h2.symm⟩
  | cons kv rest ih =>
    intro pk0 ms pk2 h
    obtain ⟨k, v⟩ := kv
    by_cases hvpk : v.primary_key = true
    · simp only [registerLoop, fillName_primary_key, hvpk, if_true] at h
      cases pk0 with
      | some p => simp at h
      | none =>
        cases heq : registerLoop cls rest (some (pkNormalize (fillName k v))) with
        | error e => rw [heq] at h; simp at h
        | ok pr =>
          obtain ⟨ms', pk2'⟩ := pr
          rw [heq] at h
          simp only [Except.ok.injEq, Prod.mk.injEq] at h
          obtain ⟨hms, hpk2⟩ := h
          obtain ⟨ih1, ih2⟩ := ih _ ms' pk2' heq
          subst hms
          refine ⟨?_, ?_⟩
          · intro kv hkv hpk
            rcases List.mem_cons.mp hkv with hkv | hkv
            · subst hkv; exact ⟨rfl, rfl⟩
            · exact ih1 kv hkv hpk
          · rcases ih2 with h2 | h2
            · exact Or.inr ⟨pkNormalize (fillName k v), by rw [← hpk2, h2], rfl, rfl⟩
            · exact Or.inr (hpk2 ▸ h2)
    · simp only [Bool.not_eq_true] at hvpk
      simp only [registerLoop, fillName_primary_key, hvpk, Bool.false_eq_true, if_false] at h
      cases heq : registerLoop cls rest pk0 with
      | error e => rw [heq] at h; simp at h
      | ok pr =>
        obtain ⟨ms', pk2'⟩ := pr
        rw [heq] at h
        simp only [Except.ok.injEq, Prod.mk.injEq] at h
        obtain ⟨hms, hpk2⟩ := h
        obtain ⟨ih1, ih2⟩ := ih _ ms' pk2' heq
        subst hms
        refine ⟨?_, hpk2 ▸ ih2⟩
        intro kv hkv hpk
        rcases List.mem_cons.mp hkv with hkv | hkv
        · exfalso
          rw [hkv] at hpk
          simp only [fillName_primary_key, hvpk] at hpk
          exact absurd hpk (by simp)
        · exact ih1 kv hkv hpk

/-- C5: for every successfully registered record type, the recorded
primary-key descriptor has `updatable = false` and `nullable = false` —
regardless of how those flags were declared — and the same holds for every
primary-key-flagged descriptor reachable through the mapping. -/
theorem registration_pk_normalized (name : String) (attrs : ClassAttrs) (M : Mapping)
    (h : modelMetaclassNew name attrs = .ok (some M)) :
    M.primary_key.updatable = false ∧ M.primary_key.nullable = false ∧
    ∀ kv ∈ M.mappings, kv.2.primary_key = true →
      kv.2.updatable = false ∧ kv.2.nullable = false := by
  by_cases hname : name = "Model"
  · simp [modelMetaclassNew, hname] at h
  · simp only [modelMetaclassNew, hname, if_false] at h
    cases heq : registerLoop name attrs.fields Option.none with
    | error e => rw [heq] at h; simp at h
    | ok pr =>
      obtain ⟨ms, pkOpt⟩ := pr
      rw [heq] at h
      cases pkOpt with
      | none => simp at h
      | some pk =>
        simp only [Except.ok.injEq, Option.some.injEq] at h
        obtain ⟨hnorm, hpk2⟩ := registerLoop_normalizes name attrs.fields _ ms (some pk) heq
        rcases hpk2 with h2 | ⟨q, hq, hqu, hqn⟩
        · exact absurd h2 (by simp)
        · simp only [Option.some.injEq] at hq
          subst hq
          have hM1 : M.primary_key = pk := by rw [← h]
          have hM2 : M.mappings = ms := by rw [← h]
          rw [hM1, hM2]
          exact ⟨hqu, hqn, hnorm⟩

/-- Witness for C5: in the registered two-column schema, the primary key was
declared updatable and nullable yet both flags are false after
registration. -/
theorem registration_pk_normalized_witness :
    wMapping.primary_key.updatable = false ∧ wMapping.primary_key.nullable = false ∧
    ∀ kv ∈ wMapping.mappings, kv.2.primary_key = true →
      kv.2.updatable = false ∧ kv.2.nullable = false :=
  registration_pk_normalized "User" wattrs wMapping rfl

/-- Helper: two sorted permutations of each other with pairwise-distinct
`_order` stamps are equal. -/
theorem sorted_nodup_order_eq (l₁ : List Field) : ∀ l₂ : List Field, l₁.Perm l₂ →
    l₁.Pairwise (fun a b => a._order ≤ b._order) →
    l₂.Pairwise (fun a b => a._order ≤ b._order) →
    (l₁.map Field._order).Nodup → l₁ = l₂ := by
  induction l₁ with
  | nil =>
    intro l₂ hp _ _ _
    exact hp.nil_eq
  | cons a t ih =>
    intro l₂ hp hs1 hs2 hnd
    cases l₂ with
    | nil => exact absurd hp.eq_nil (by simp)
    | cons b t₂ =>
      obtain ⟨ha1, hs1t⟩ := List.pairwise_cons.mp hs1
      obtain ⟨hb1, hs2t⟩ := List.pairwise_cons.mp hs2
      obtain ⟨hnd1, hndt⟩ := List.nodup_cons.mp ((List.map_cons Field._order a t) ▸ hnd)
      have hb_mem : b ∈ a :: t := hp.symm.mem_iff.mp (List.mem_cons_self b t₂)
      have ha_mem : a ∈ b :: t₂ := hp.mem_iff.mp (List.mem_cons_self a t)
      have hab : a._order ≤ b._order := by
        rcases List.mem_cons.mp hb_mem with h | h
        · rw [h]
        · exact ha1 b h
      have hba : b._order ≤ a._order := by
        rcases List.mem_cons.mp ha_mem with h | h
        · rw [h]
        · exact hb1 a h
      have horder : a._order = b._order := Nat.le_antisymm hab hba
      have hbeq : b = a := by
        rcases List.mem_cons.mp hb_mem with h | h
        · exact h
        · exact absurd (horder ▸ List.mem_map_of_mem Field._order h) hnd1
      subst hbeq
      have ht : t = t₂ := ih t₂ hp.cons_inv hs1t hs2t hndt
      rw [ht]

/-- C2: the DDL generator is deterministic — it is a pure function, and its
output is invariant under any reordering of the mapping's internal iteration
order (given the pairwise-distinct `_order` stamps that `Field._count`
guarantees); moreover the emitted column sequence is exactly the mapping's
descriptors sorted ascending by `_order` (declaration order). -/
theorem gen_sql_deterministic (t : String) (m₁ m₂ : List (String × Field))
    (hperm : m₁.Perm m₂)
    (hnodup : ((m₁.map Prod.snd).map Field._order).Nodup) :
    _gen_sql t m₁ = _gen_sql t m₂ ∧
    (sortedFields m₁).Pairwise (fun a b => a._order ≤ b._order) ∧
    (sortedFields m₁).Perm (m₁.map Prod.snd) := by
  have hs1 : (sortedFields m₁).Pairwise (fun a b => a._order ≤ b._order) :=
    List.sorted_insertionSort fieldOrder (m₁.map Prod.snd)
  have hs2 : (sortedFields m₂).Pairwise (fun a b => a._order ≤ b._order) :=
    List.sorted_insertionSort fieldOrder (m₂.map Prod.snd)
  have hp1 : (sortedFields m₁).Perm (m₁.map Prod.snd) :=
    List.perm_insertionSort fieldOrder (m₁.map Prod.snd)
  have hp2 : (sortedFields m₂).Perm (m₂.map Prod.snd) :=
    List.perm_insertionSort fieldOrder (m₂.map Prod.snd)
  have hp12 : (sortedFields m₁).Perm (sortedFields m₂) :=
    (hp1.trans (hperm.map Prod.snd)).trans hp2.symm
  have hnd1 : ((sortedFields m₁).map Field._order).Nodup :=
    ((hp1.map Field._order).nodup_iff).mpr hnodup
  have heq : sortedFields m₁ = sortedFields m₂ :=
    sorted_nodup_order_eq (sortedFields m₁) (sortedFields m₂) hp12 hs1 hs2 hnd1
  refine ⟨?_, hs1, hp1⟩
  unfold _gen_sql
  rw [heq]

/-- Witness for C2 at the two-column schema presented in two different
iteration orders. -/
theorem gen_sql_deterministic_witness :
    _gen_sql "user" [("name", wnameF), ("id", widF)] =
      _gen_sql "user" [("id", widF), ("name", wnameF)] ∧
    (sortedFields [("name", wnameF), ("id", widF)]).Pairwise
      (fun a b => a._order ≤ b._order) ∧
    (sortedFields [("name", wnameF), ("id", widF)]).Perm
      ([("name", wnameF), ("id", widF)].map Prod.snd) :=
  gen_sql_deterministic "user" [("name", wnameF), ("id", widF)]
    [("id", widF), ("name", wnameF)] (List.Perm.swap ("id", widF) ("name", wnameF) [])
    (by decide)

/-- Helper: the column loop of `_gen_sql` fails exactly when some field lacks
the `ddl` attribute. -/
theorem genSqlLoop_isOk_iff (fs : List Field) : ∀ pk : String,
    ((genSqlLoop fs pk).isOk = false ↔ ∃ f ∈ fs, f.ddl = Option.none) := by
  induction fs with
  | nil => intro pk; simp [genSqlLoop, Except.isOk, Except.toBool]
  | cons f fs ih =>
    intro pk
    cases hddl : f.ddl with
    | none => simp [genSqlLoop, hddl, Except.isOk, Except.toBool]
    | some s =>
      simp only [genSqlLoop, hddl]
      cases hrec : genSqlLoop fs (if f.primary_key then pyStr f.name else pk) with
      | error e =>
        constructor
        · intro _
          obtain ⟨g, hg, hgd⟩ := (ih _).mp (by rw [hrec]; rfl)
          exact ⟨g, List.mem_cons_of_mem f hg, hgd⟩
        · intro _
          rfl
      | ok pr =>
        obtain ⟨lines, pk2⟩ := pr
        constructor
        · intro hfalse
          exact absurd hfalse (by simp [Except.isOk, Except.toBool])
        · intro ⟨g, hg, hgd⟩
          rcases List.mem_cons.mp hg with hg | hg
          · rw [hg] at hgd
            rw [hgd] at hddl
            exact absurd hddl (by simp)
          · have hko : (genSqlLoop fs (if f.primary_key then pyStr f.name else pk)).isOk
                = false := (ih _).mpr ⟨g, hg, hgd⟩
            rw [hrec] at hko
            exact absurd hko (by simp [Except.isOk, Except.toBool])

/-- C4 (amended): `_gen_sql` raises its schema error exactly when some column
in the mapping lacks the `ddl` attribute altogether; since every descriptor
constructor sets `ddl` (to the empty string when the option is not given),
a column whose `ddl` is merely empty raises nothing. -/
theorem gen_sql_ddl_error_iff (t : String) (m : List (String × Field)) :
    ((_gen_sql t m).isOk = false ↔ ∃ kv ∈ m, kv.2.ddl = Option.none) ∧
    (∀ kw c, ((Field.init kw c).1.ddl).isSome = true) := by
  constructor
  · have hmem : (∃ f ∈ sortedFields m, f.ddl = Option.none) ↔
        ∃ kv ∈ m, kv.2.ddl = Option.none := by
      constructor
      · intro ⟨f, hf, hfd⟩
        have : f ∈ m.map Prod.snd :=
          (List.perm_insertionSort fieldOrder (m.map Prod.snd)).mem_iff.mp hf
        obtain ⟨kv, hkv, hkvf⟩ := List.mem_map.mp this
        exact ⟨kv, hkv, hkvf ▸ hfd⟩
      · intro ⟨kv, hkv, hkvd⟩
        refine ⟨kv.2, ?_, hkvd⟩
        exact (List.perm_insertionSort fieldOrder (m.map Prod.snd)).mem_iff.mpr
          (List.mem_map_of_mem Prod.snd hkv)
    rw [← hmem, ← genSqlLoop_isOk_iff (sortedFields m) "None"]
    unfold _gen_sql
    cases hrec : genSqlLoop (sortedFields m) "None" with
    | error e => simp [Except.isOk, Except.toBool]
    | ok pr => obtain ⟨lines, pk⟩ := pr; simp [Except.isOk, Except.toBool]
  · intro kw c; rfl

/-- Witness for C4's amended statement at the registered text-column
mapping. -/
theorem gen_sql_ddl_error_iff_witness :
    ((_gen_sql docMapping.table docMapping.mappings).isOk = false ↔
      ∃ kv ∈ docMapping.mappings, kv.2.ddl = Option.none) ∧
    (∀ kw c, ((Field.init kw c).1.ddl).isSome = true) :=
  gen_sql_ddl_error_iff docMapping.table docMapping.mappings

/-- Counterexample to C4 as stated: the registered single-text-column mapping
has a column whose `ddl` is the EMPTY string, yet DDL generation succeeds—and
the emitted `CREATE TABLE` text contains that column with an empty type
clause, contradicting both halves of the claim. -/
theorem gen_sql_empty_ddl_counterexample :
    (docMapping.mappings.map (fun kv => kv.2.ddl)) = [some ""] ∧
    (_gen_sql docMapping.table docMapping.mappings).toOption =
      some "-- generating SQL for doc:\ncreate table `doc` (\n  `content`  not null,\n  primary key(`content`)\n);" ∧
    (_gen_sql docMapping.table docMapping.mappings).isOk = true := by
  refine ⟨rfl, by decide, rfl⟩

/-- Helper: writing one key leaves `hasattr` of any other key unchanged. -/
theorem hasattrb_setattr_other (self : ModelDict) (k key : String) (d : PyVal)
    (h : k ≠ key) :
    Model.hasattrb (Model.setattr self k d) key = Model.hasattrb self key := by
  simp [Model.hasattrb, Model.setattr, dictGet_dictSet_other _ _ _ _ h]

/-- Helper: reading back the key just written by `setattr`. -/
theorem dictGet_setattr_self (self : ModelDict) (k : String) (d : PyVal) :
    dictGet (Model.setattr self k d) k = some d := by
  simp [Model.setattr, dictGet_dictSet_self]

/-- Helper: `setattr` on one key does not change another key's lookup. -/
theorem dictGet_setattr_other (self : ModelDict) (k key : String) (d : PyVal)
    (h : k ≠ key) :
    dictGet (Model.setattr self k d) key = dictGet self key := by
  simp [Model.setattr, dictGet_dictSet_other _ _ _ _ h]

/-- Helper: `insertLoop` never overwrites an attribute that is already set. -/
theorem insertLoop_get_preserved (maps : List (String × Field)) :
    ∀ (self : ModelDict) (params : List (Option String × PyVal)) (n : Nat)
      (key : String) (w : PyVal), dictGet self key = some w →
      dictGet (insertLoop maps self params n).1 key = some w := by
  induction maps with
  | nil => intro self params n key w h; simpa [insertLoop] using h
  | cons hd rest ih =>
    intro self params n key w h
    obtain ⟨k, v⟩ := hd
    by_cases hi : v.insertable = true
    · cases hkv : dictGet self k with
      | some w2 =>
        simp only [insertLoop, hi, if_true, hkv]
        exact ih _ _ _ _ _ h
      | none =>
        have hkk : k ≠ key := by
          intro he
          rw [he, h] at hkv
          exact absurd hkv (by simp)
        simp only [insertLoop, hi, if_true, hkv]
        refine ih _ _ _ _ _ ?_
        rw [dictGet_setattr_other _ _ _ _ hkk]
        exact h
    · simp only [Bool.not_eq_true] at hi
      simp only [insertLoop, hi, Bool.false_eq_true, if_false]
      exact ih _ _ _ _ _ h

/-- Helper: after `insertLoop`, every insertable column has a value on the
instance. -/
theorem insertLoop_covers (maps : List (String × Field)) :
    ∀ self params n, ∀ kv ∈ maps, kv.2.insertable = true →
      Model.hasattrb (insertLoop maps self params n).1 kv.1 = true := by
  induction maps with
  | nil => intro self params n kv h; simp at h
  | cons hd rest ih =>
    intro self params n kv hkv hins
    obtain ⟨k, v⟩ := hd
    rcases List.mem_cons.mp hkv with he | hm
    · subst he
      have hins2 : v.insertable = true := hins
      cases hkv2 : dictGet self k with
      | some w =>
        simp only [insertLoop, hins2, if_true, hkv2]
        have := insertLoop_get_preserved rest self (dictSet params v.name w) n k w hkv2
        simp [Model.hasattrb, this]
      | none =>
        simp only [insertLoop, hins2, if_true, hkv2]
        have := insertLoop_get_preserved rest (Model.setattr self k ((v.default n).1))
          (dictSet params v.name ((v.default n).1)) ((v.default n).2) k ((v.default n).1)
          (dictGet_setattr_self _ _ _)
        simp [Model.hasattrb, this]
    · by_cases hi : v.insertable = true
      · cases hkv2 : dictGet self k with
        | some w =>
          simp only [insertLoop, hi, if_true, hkv2]
          exact ih _ _ _ kv hm hins
        | none =>
          simp only [insertLoop, hi, if_true, hkv2]
          exact ih _ _ _ kv hm hins
      · simp only [Bool.not_eq_true] at hi
        simp only [insertLoop, hi, Bool.false_eq_true, if_false]
        exact ih _ _ _ kv hm hins

/-- Helper: `insertLoop` does not touch a `params` entry whose name belongs to
no insertable column of the remaining mapping. -/
theorem insertLoop_params_preserved (maps : List (String × Field)) :
    ∀ self params n (nm : Option String),
      (∀ kv ∈ maps, kv.2.insertable = true → kv.2.name ≠ nm) →
      dictGet (insertLoop maps self params n).2.1 nm = dictGet params nm := by
  induction maps with
  | nil => intro self params n nm _; simp [insertLoop]
  | cons hd rest ih =>
    intro self params n nm hno
    obtain ⟨k, v⟩ := hd
    by_cases hi : v.insertable = true
    · have hvn : v.name ≠ nm := hno (k, v) (List.mem_cons_self _ _) hi
      have hrest : ∀ kv ∈ rest, kv.2.insertable = true → kv.2.name ≠ nm :=
        fun kv h hi2 => hno kv (List.mem_cons_of_mem _ h) hi2
      cases hkv : dictGet self k with
      | some w =>
        simp only [insertLoop, hi, if_true, hkv]
        rw [ih _ _ _ _ hrest, dictGet_dictSet_other _ _ _ _ hvn]
      | none =>
        simp only [insertLoop, hi, if_true, hkv]
        rw [ih _ _ _ _ hrest, dictGet_dictSet_other _ _ _ _ hvn]
    · simp only [Bool.not_eq_true] at hi
      simp only [insertLoop, hi, Bool.false_eq_true, if_false]
      exact ih _ _ _ _ (fun kv h hi2 => hno kv (List.mem_cons_of_mem _ h) hi2)

/-- Helper: with pairwise-distinct column names, the `params` entry recorded
for an insertable column equals the value stored on the returned instance
under the column's attribute key. -/
theorem insertLoop_params_reflect (maps : List (String × Field)) :
    ∀ self params n,
      (maps.map (fun kv => kv.2.name)).Nodup →
      ∀ kv ∈ maps, kv.2.insertable = true →
        dictGet (insertLoop maps self params n).2.1 kv.2.name =
          dictGet (insertLoop maps self params n).1 kv.1 := by
  induction maps with
  | nil => intro self params n _ kv h; simp at h
  | cons hd rest ih =>
    intro self params n hnd kv hkv hins
    obtain ⟨k, v⟩ := hd
    rw [List.map_cons] at hnd
    obtain ⟨hnn, hndr⟩ := List.nodup_cons.mp hnd
    rcases List.mem_cons.mp hkv with he | hm
    · subst he
      have hins2 : v.insertable = true := hins
      have hrest : ∀ kv2 ∈ rest, kv2.2.insertable = true → kv2.2.name ≠ v.name := by
        intro kv2 h2 _ heq
        exact hnn (heq ▸ List.mem_map_of_mem (fun kv => kv.2.name) h2)
      cases hkv2 : dictGet self k with
      | some w =>
        simp only [insertLoop, hins2, if_true, hkv2]
        rw [insertLoop_params_preserved rest _ _ _ _ hrest, dictGet_dictSet_self,
            insertLoop_get_preserved rest _ _ _ _ _ hkv2]
      | none =>
        simp only [insertLoop, hins2, if_true, hkv2]
        rw [insertLoop_params_preserved rest _ _ _ _ hrest, dictGet_dictSet_self,
            insertLoop_get_preserved rest _ _ _ _ _ (dictGet_setattr_self _ _ _)]
    · by_cases hi : v.insertable = true
      · cases hkv2 : dictGet self k with
        | some w =>
          simp only [insertLoop, hi, if_true, hkv2]
          exact ih _ _ _ hndr kv hm hins
        | none =>
          simp only [insertLoop, hi, if_true, hkv2]
          exact ih _ _ _ hndr kv hm hins
      · simp only [Bool.not_eq_true] at hi
        simp only [insertLoop, hi, Bool.false_eq_true, if_false]
        exact ih _ _ _ hndr kv hm hins

/-- Helper: with pairwise-distinct attribute keys, an insertable column that
was missing from the instance and carries a plain default ends up holding
exactly that default value. -/
theorem insertLoop_plain_default (maps : List (String × Field)) :
    ∀ self params n,
      (maps.map Prod.fst).Nodup →
      ∀ kv ∈ maps, kv.2.insertable = true → Model.hasattrb self kv.1 = false →
      ∀ d, kv.2._default = .value d →
        dictGet (insertLoop maps self params n).1 kv.1 = some d := by
  induction maps with
  | nil => intro self params n _ kv h; simp at h
  | cons hd rest ih =>
    intro self params n hnd kv hkv hins habs d hdef
    obtain ⟨k, v⟩ := hd
    rw [List.map_cons] at hnd
    obtain ⟨hkn, hndr⟩ := List.nodup_cons.mp hnd
    rcases List.mem_cons.mp hkv with he | hm
    · subst he
      have hins2 : v.insertable = true := hins
      have hdef2 : v._default = .value d := hdef
      have hget : dictGet self k = Option.none := by
        cases hg : dictGet self k with
        | none => rfl
        | some w => simp [Model.hasattrb, hg] at habs
      simp only [insertLoop, hins2, if_true, hget, Field.default, hdef2, FieldDefault.eval]
      exact insertLoop_get_preserved rest _ _ _ _ _ (dictGet_setattr_self _ _ _)
    · by_cases hi : v.insertable = true
      · cases hkv2 : dictGet self k with
        | some w =>
          simp only [insertLoop, hi, if_true, hkv2]
          exact ih _ _ _ hndr kv hm hins habs d hdef
        | none =>
          have hne : k ≠ kv.1 := by
            intro he
            refine hkn ?_
            show k ∈ List.map Prod.fst rest
            rw [he]
            exact List.mem_map_of_mem Prod.fst hm
          have habs2 : Model.hasattrb (Model.setattr self k ((v.default n).1)) kv.1
              = false := by
            rw [hasattrb_setattr_other _ _ _ _ hne]
            exact habs
          simp only [insertLoop, hi, if_true, hkv2]
          exact ih _ _ _ hndr kv hm hins habs2 d hdef
      · simp only [Bool.not_eq_true] at hi
        simp only [insertLoop, hi, Bool.false_eq_true, if_false]
        exact ih _ _ _ hndr kv hm hins habs d hdef

/-- Helper: running `insertLoop` again from its own result instance and
counter (with the same fresh `params` accumulator) changes nothing: every
value it would need is already stored, so no default is re-evaluated. -/
theorem insertLoop_idempotent (maps : List (String × Field)) :
    ∀ self params n,
      insertLoop maps (insertLoop maps self params n).1 params
          (insertLoop maps self params n).2.2
        = insertLoop maps self params n := by
  induction maps with
  | nil => intro self params n; simp [insertLoop]
  | cons hd rest ih =>
    intro self params n
    obtain ⟨k, v⟩ := hd
    by_cases hi : v.insertable = true
    · cases hkv : dictGet self k with
      | some w =>
        simp only [insertLoop, hi, if_true, hkv]
        rw [insertLoop_get_preserved rest self (dictSet params v.name w) n k w hkv]
        exact ih _ _ _
      | none =>
        simp only [insertLoop, hi, if_true, hkv]
        rw [insertLoop_get_preserved rest (Model.setattr self k ((v.default n).1))
          (dictSet params v.name ((v.default n).1)) ((v.default n).2) k ((v.default n).1)
          (dictGet_setattr_self _ _ _)]
        exact ih _ _ _
    · simp only [Bool.not_eq_true] at hi
      simp only [insertLoop, hi, Bool.false_eq_true, if_false]
      exact ih _ _ _

/-- C6: with no `pre_insert` hook, `insert()` materializes a default onto the
instance for every insertable column the instance had no value for (a plain
default is stored verbatim; a callable default is evaluated once, advancing
the ambient state), the column-name-to-value `params` mapping handed to the
insert primitive reads back exactly the values stored on the returned
instance, and a second `insert()` of the returned instance is a no-op: same
instance, same `params`, same state counter — the stored values are reused
rather than the defaults re-evaluated. -/
theorem insert_defaults_idempotent (M : Mapping) (self : ModelDict) (n : Nat)
    (hpre : M.pre_insert = Option.none)
    (hkeys : (M.mappings.map Prod.fst).Nodup)
    (hnames : (M.mappings.map (fun kv => kv.2.name)).Nodup) :
    (∀ kv ∈ M.mappings, kv.2.insertable = true →
        Model.hasattrb (Model.insert M self n).1 kv.1 = true) ∧
    (∀ kv ∈ M.mappings, kv.2.insertable = true →
        dictGet (Model.insert M self n).2.1 kv.2.name =
          dictGet (Model.insert M self n).1 kv.1) ∧
    (∀ kv ∈ M.mappings, kv.2.insertable = true → Model.hasattrb self kv.1 = false →
        ∀ d, kv.2._default = .value d →
          dictGet (Model.insert M self n).1 kv.1 = some d) ∧
    Model.insert M (Model.insert M self n).1 (Model.insert M self n).2.2 =
      Model.insert M self n := by
  simp only [Model.insert, hpre]
  exact ⟨fun kv h hi => insertLoop_covers M.mappings self [] n kv h hi,
         fun kv h hi => insertLoop_params_reflect M.mappings self [] n hnames kv h hi,
         fun kv h hi habs d hd =>
           insertLoop_plain_default M.mappings self [] n hkeys kv h hi habs d hd,
         insertLoop_idempotent M.mappings self [] n⟩

/-- Witness for C6 at the registered two-column schema, inserting an instance
that holds only its primary-key value. -/
theorem insert_defaults_idempotent_witness :
    (∀ kv ∈ wMapping.mappings, kv.2.insertable = true →
        Model.hasattrb (Model.insert wMapping [("id", PyVal.int 300)] 0).1 kv.1 = true) ∧
    (∀ kv ∈ wMapping.mappings, kv.2.insertable = true →
        dictGet (Model.insert wMapping [("id", PyVal.int 300)] 0).2.1 kv.2.name =
          dictGet (Model.insert wMapping [("id", PyVal.int 300)] 0).1 kv.1) ∧
    (∀ kv ∈ wMapping.mappings, kv.2.insertable = true →
        Model.hasattrb [("id", PyVal.int 300)] kv.1 = false →
        ∀ d, kv.2._default = .value d →
          dictGet (Model.insert wMapping [("id", PyVal.int 300)] 0).1 kv.1 = some d) ∧
    Model.insert wMapping (Model.insert wMapping [("id", PyVal.int 300)] 0).1
        (Model.insert wMapping [("id", PyVal.int 300)] 0).2.2 =
      Model.insert wMapping [("id", PyVal.int 300)] 0 :=
  insert_defaults_idempotent wMapping [("id", PyVal.int 300)] 0 rfl (by decide) (by decide)

/-- Helper: `Model.__getattr__` succeeds with a value exactly when the dict
holds that value under the key. -/
theorem getattr_ok_iff (self : ModelDict) (key : String) (v : PyVal) :
    Model.getattr self key = .ok v ↔ dictGet self key = some v := by
  unfold Model.getattr
  cases h : dictGet self key <;> simp

/-- Helper: `updateLoop` never overwrites an attribute that is already set. -/
theorem updateLoop_get_preserved (maps : List (String × Field)) :
    ∀ (self : ModelDict) (n : Nat) (key : String) (w : PyVal),
      dictGet self key = some w →
      dictGet (updateLoop maps self n).1 key = some w := by
  induction maps with
  | nil => intro self n key w h; simpa [updateLoop] using h
  | cons hd rest ih =>
    intro self n key w h
    obtain ⟨k, v⟩ := hd
    by_cases hu : v.updatable = true
    · cases hkv : dictGet self k with
      | some w2 =>
        simp only [updateLoop, hu, if_true, hkv]
        exact ih _ _ _ _ h
      | none =>
        have hkk : k ≠ key := by
          intro he
          rw [he, h] at hkv
          exact absurd hkv (by simp)
        simp only [updateLoop, hu, if_true, hkv]
        refine ih _ _ _ _ ?_
        rw [dictGet_setattr_other _ _ _ _ hkk]
        exact h
    · simp only [Bool.not_eq_true] at hu
      simp only [updateLoop, hu, Bool.false_eq_true, if_false]
      exact ih _ _ _ _ h

/-- Helper: the SET-clause entries accumulated by `updateLoop` are exactly the
updatable columns, in mapping iteration order, backquoted with a `=?`
placeholder. -/
theorem updateLoop_setclause (maps : List (String × Field)) :
    ∀ self n, (updateLoop maps self n).2.1 =
      (maps.filter (fun kv => kv.2.updatable)).map (fun kv => "`" ++ kv.1 ++ "`=?") := by
  induction maps with
  | nil => intro self n; simp [updateLoop]
  | cons hd rest ih =>
    intro self n
    obtain ⟨k, v⟩ := hd
    by_cases hu : v.updatable = true
    · cases hkv : dictGet self k with
      | some w =>
        simp only [updateLoop, hu, if_true, hkv, List.filter_cons, List.map_cons]
        rw [ih]
      | none =>
        simp only [updateLoop, hu, if_true, hkv, List.filter_cons, List.map_cons]
        rw [ih]
    · simp only [Bool.not_eq_true] at hu
      simp only [updateLoop, hu, Bool.false_eq_true, if_false, List.filter_cons]
      exact ih _ _

/-- Helper: with pairwise-distinct attribute keys, the argument list
accumulated by `updateLoop` is exactly the updatable columns' values as read
from the final (post-materialization) instance, in mapping iteration order. -/
theorem updateLoop_args (maps : List (String × Field)) :
    ∀ self n, (maps.map Prod.fst).Nodup →
      (updateLoop maps self n).2.2.1 =
        (maps.filter (fun kv => kv.2.updatable)).map
          (fun kv => (dictGet (updateLoop maps self n).1 kv.1).getD PyVal.none) := by
  induction maps with
  | nil => intro self n _; simp [updateLoop]
  | cons hd rest ih =>
    intro self n hnd
    obtain ⟨k, v⟩ := hd
    rw [List.map_cons] at hnd
    obtain ⟨hkn, hndr⟩ := List.nodup_cons.mp hnd
    by_cases hu : v.updatable = true
    · cases hkv : dictGet self k with
      | some w =>
        simp only [updateLoop, hu, if_true, hkv, List.filter_cons, List.map_cons]
        rw [updateLoop_get_preserved rest self n k w hkv, ih _ _ hndr]
        simp
      | none =>
        simp only [updateLoop, hu, if_true, hkv, List.filter_cons, List.map_cons]
        rw [updateLoop_get_preserved rest (Model.setattr self k ((v.default n).1))
          ((v.default n).2) k ((v.default n).1) (dictGet_setattr_self _ _ _),
          ih _ _ hndr]
        simp
    · simp only [Bool.not_eq_true] at hu
      simp only [updateLoop, hu, Bool.false_eq_true, if_false, List.filter_cons]
      exact ih _ _ hndr

/-- Helper: after `updateLoop`, every updatable column has a value on the
instance (its default was materialized when missing). -/
theorem updateLoop_covers (maps : List (String × Field)) :
    ∀ self n, ∀ kv ∈ maps, kv.2.updatable = true →
      Model.hasattrb (updateLoop maps self n).1 kv.1 = true := by
  induction maps with
  | nil => intro self n kv h; simp at h
  | cons hd rest ih =>
    intro self n kv hkv hupd
    obtain ⟨k, v⟩ := hd
    rcases List.mem_cons.mp hkv with he | hm
    · subst he
      have hupd2 : v.updatable = true := hupd
      cases hkv2 : dictGet self k with
      | some w =>
        simp only [updateLoop, hupd2, if_true, hkv2]
        have := updateLoop_get_preserved rest self n k w hkv2
        simp [Model.hasattrb, this]
      | none =>
        simp only [updateLoop, hupd2, if_true, hkv2]
        have := updateLoop_get_preserved rest (Model.setattr self k ((v.default n).1))
          ((v.default n).2) k ((v.default n).1) (dictGet_setattr_self _ _ _)
        simp [Model.hasattrb, this]
    · by_cases hu : v.updatable = true
      · cases hkv2 : dictGet self k with
        | some w =>
          simp only [updateLoop, hu, if_true, hkv2]
          exact ih _ _ kv hm hupd
        | none =>
          simp only [updateLoop, hu, if_true, hkv2]
          exact ih _ _ kv hm hupd
      · simp only [Bool.not_eq_true] at hu
        simp only [updateLoop, hu, Bool.false_eq_true, if_false]
        exact ih _ _ kv hm hupd

/-- Helper: `updateLoop` leaves a key untouched when no updatable column uses
it as attribute key. -/
theorem updateLoop_absent (maps : List (String × Field)) :
    ∀ self n (key : String),
      (∀ kv ∈ maps, kv.2.updatable = true → kv.1 ≠ key) →
      dictGet (updateLoop maps self n).1 key = dictGet self key := by
  induction maps with
  | nil => intro self n key _; simp [updateLoop]
  | cons hd rest ih =>
    intro self n key hno
    obtain ⟨k, v⟩ := hd
    by_cases hu : v.updatable = true
    · have hkk : k ≠ key := hno (k, v) (List.mem_cons_self _ _) hu
      have hrest : ∀ kv ∈ rest, kv.2.updatable = true → kv.1 ≠ key :=
        fun kv h hu2 => hno kv (List.mem_cons_of_mem _ h) hu2
      cases hkv : dictGet self k with
      | some w =>
        simp only [updateLoop, hu, if_true, hkv]
        exact ih _ _ _ hrest
      | none =>
        simp only [updateLoop, hu, if_true, hkv]
        rw [ih _ _ _ hrest, dictGet_setattr_other _ _ _ _ hkk]
    · simp only [Bool.not_eq_true] at hu
      simp only [updateLoop, hu, Bool.false_eq_true, if_false]
      exact ih _ _ _ (fun kv h hu2 => hno kv (List.mem_cons_of_mem _ h) hu2)

/-- C7: with no `pre_update` hook and distinct attribute keys, when `update()`
reaches the database primitive, the SQL text is exactly
`update <table> set <col1>=?,<col2>=?,... where <pk_name>=?` whose SET entries
are precisely the updatable columns (non-updatable columns, the primary key
included once normalized, are absent), and the argument list is those columns'
current (post-materialization) values with the current primary-key value
appended last. -/
theorem update_sql_shape (M : Mapping) (self : ModelDict) (n : Nat) (sql : String)
    (args : List PyVal)
    (hpre : M.pre_update = Option.none)
    (hkeys : (M.mappings.map Prod.fst).Nodup)
    (h : (Model.update M self n).1 = .ok (sql, args)) :
    sql = "update `" ++ M.table ++ "` set " ++
        String.intercalate "," (updateSetColsSpec M) ++ " where " ++
        pyStr M.primary_key.name ++ "=?" ∧
    args = updateArgsSpec M (Model.update M self n).2.1 ++
        [(dictGet (Model.update M self n).2.1 (pyStr M.primary_key.name)).getD
          PyVal.none] := by
  simp only [Model.update, hpre] at h ⊢
  cases hg : Model.getattr (updateLoop M.mappings self n).1 (pyStr M.primary_key.name) with
  | error e =>
    rw [hg] at h
    simp at h
  | ok pkv =>
    rw [hg] at h
    simp only [Except.ok.injEq, Prod.mk.injEq] at h
    obtain ⟨hsql, hargs⟩ := h
    have hdg : dictGet (updateLoop M.mappings self n).1 (pyStr M.primary_key.name)
        = some pkv := (getattr_ok_iff _ _ _).mp hg
    constructor
    · rw [← hsql, updateLoop_setclause M.mappings self n]
      rfl
    · rw [← hargs, updateLoop_args M.mappings self n hkeys]
      simp only [updateArgsSpec, hdg, Option.getD_some]

/-- Witness for C7: updating an instance of the registered two-column schema
that holds only its primary key produces the expected SET clause over the one
updatable column and the primary-key value last. -/
theorem update_sql_shape_witness :
    ("update `user` set `name`=? where id=?" =
      "update `" ++ wMapping.table ++ "` set " ++
        String.intercalate "," (updateSetColsSpec wMapping) ++ " where " ++
        pyStr wMapping.primary_key.name ++ "=?") ∧
    ([PyVal.str "", PyVal.int 300] =
      updateArgsSpec wMapping (Model.update wMapping [("id", PyVal.int 300)] 0).2.1 ++
        [(dictGet (Model.update wMapping [("id", PyVal.int 300)] 0).2.1
            (pyStr wMapping.primary_key.name)).getD PyVal.none]) :=
  update_sql_shape wMapping [("id", PyVal.int 300)] 0
    "update `user` set `name`=? where id=?" [PyVal.str "", PyVal.int 300]
    rfl (by decide) (by decide)

/-- C10: with no hooks, when the primary-key attribute is unset (and, for
`update()`, no updatable column writes the primary-key name as its attribute
key — true after normalization since the primary key is non-updatable), both
`update()` and `delete()` raise `AttributeError` instead of reaching the
database primitive; and the instance `update()` leaves behind at the moment of
the error already has the defaults for all missing updatable columns
materialized onto it. -/
theorem update_delete_missing_pk (M : Mapping) (self : ModelDict) (n : Nat)
    (hpreU : M.pre_update = Option.none) (hpreD : M.pre_delete = Option.none)
    (hpk : Model.hasattrb self (pyStr M.primary_key.name) = false)
    (hnoset : ∀ kv ∈ M.mappings, kv.2.updatable = true →
      kv.1 ≠ pyStr M.primary_key.name) :
    (∃ msg, (Model.update M self n).1 = .error (.attributeError msg)) ∧
    (∀ kv ∈ M.mappings, kv.2.updatable = true →
        Model.hasattrb (Model.update M self n).2.1 kv.1 = true) ∧
    (∃ msg, (Model.delete M self n).1 = .error (.attributeError msg)) := by
  have habsD : dictGet self (pyStr M.primary_key.name) = Option.none := by
    cases hdg : dictGet self (pyStr M.primary_key.name) with
    | none => rfl
    | some w => simp [Model.hasattrb, hdg] at hpk
  have habs : dictGet (updateLoop M.mappings self n).1 (pyStr M.primary_key.name)
      = Option.none := by
    rw [updateLoop_absent M.mappings self n _ hnoset]
    exact habsD
  refine ⟨⟨"Dict object has no attribute " ++ pyStr M.primary_key.name, ?_⟩, ?_,
          ⟨"Dict object has no attribute " ++ pyStr M.primary_key.name, ?_⟩⟩
  · simp only [Model.update, hpreU, Model.getattr, habs]
  · intro kv h hu
    simp only [Model.update, hpreU]
    cases hg : Model.getattr (updateLoop M.mappings self n).1 (pyStr M.primary_key.name) with
    | error e =>
      simp only [hg]
      exact updateLoop_covers M.mappings self n kv h hu
    | ok pkv =>
      simp only [hg]
      exact updateLoop_covers M.mappings self n kv h hu
  · simp only [Model.delete, hpreD, Model.getattr, habsD]

/-- Witness for C10: updating or deleting an empty instance of the registered
two-column schema raises `AttributeError`, while the update has already
materialized the updatable column's default. -/
theorem update_delete_missing_pk_witness :
    (∃ msg, (Model.update wMapping [] 0).1 = .error (.attributeError msg)) ∧
    (∀ kv ∈ wMapping.mappings, kv.2.updatable = true →
        Model.hasattrb (Model.update wMapping [] 0).2.1 kv.1 = true) ∧
    (∃ msg, (Model.delete wMapping [] 0).1 = .error (.attributeError msg)) :=
  update_delete_missing_pk wMapping [] 0 rfl rfl rfl (by decide)

end Orm
